import Mathlib

/-!
Verification of the `cinder::TriMesh` / `cinder::TriMesh2d` indexed
triangle-mesh container (`include/cinder/TriMesh.h`).

The header defines the data model (six parallel buffers) and gives inline
bodies for the `has*`, `append*` (single-element) and `getNum*` members;
those are embedded here directly.  The bodies of `recalculateNormals`,
`read`/`write`, `calcBoundingBox` and `getTriangleVertices` live in a
translation unit that is not part of the sources, so those operations are
modelled from the specification, each marked `Modelled from the spec:` in
its doc comment.

Scalar model: the C++ `float` coordinates are embedded as exact rationals
(`ℚ`); machine index integers are `ℕ` with the `uint32_t` narrowing of
`TriMesh::appendTriangle` made explicit as `% 2^32`.
-/

/-- Embedding of `cinder::Vec3f` as an exact rational 3-vector. -/
structure Vec3 where
  x : ℚ
  y : ℚ
  z : ℚ
deriving DecidableEq, Repr

/-- Embedding of `cinder::Vec2f`. -/
structure Vec2 where
  x : ℚ
  y : ℚ
deriving DecidableEq, Repr

/-- Embedding of `cinder::Color` (RGB). -/
structure Color where
  r : ℚ
  g : ℚ
  b : ℚ
deriving DecidableEq, Repr

/-- Embedding of `cinder::ColorA` (RGBA). -/
structure ColorA where
  r : ℚ
  g : ℚ
  b : ℚ
  a : ℚ
deriving DecidableEq, Repr

/-- Embedding of `cinder::TriMesh`: the six parallel buffers of the header's
private section.  `mIndices` holds the `std::vector<uint32_t>` index buffer;
its elements are naturals, with the `uint32_t` narrowing applied explicitly
where the source converts (see `TriMesh.appendTriangle`). -/
structure TriMesh where
  mVertices  : List Vec3
  mNormals   : List Vec3
  mColorsRGB : List Color
  mColorsRGBA : List ColorA
  mTexCoords : List Vec2
  mIndices   : List ℕ
deriving DecidableEq, Repr

/-- The freshly-constructed (all-empty) mesh. -/
def TriMesh.empty : TriMesh := ⟨[], [], [], [], [], []⟩

/-- `bool hasNormals() const { return ! mNormals.empty(); }` -/
def TriMesh.hasNormals (m : TriMesh) : Bool := !m.mNormals.isEmpty

/-- `bool hasColorsRGB() const { return ! mColorsRGB.empty(); }` -/
def TriMesh.hasColorsRGB (m : TriMesh) : Bool := !m.mColorsRGB.isEmpty

/-- `bool hasColorsRGBA() const { return ! mColorsRGBA.empty(); }` -/
def TriMesh.hasColorsRGBA (m : TriMesh) : Bool := !m.mColorsRGBA.isEmpty

/-- `bool hasTexCoords() const { return ! mTexCoords.empty(); }` -/
def TriMesh.hasTexCoords (m : TriMesh) : Bool := !m.mTexCoords.isEmpty

/-- `void appendVertex( const Vec3f &v ) { mVertices.push_back( v ); }` -/
def TriMesh.appendVertex (m : TriMesh) (v : Vec3) : TriMesh :=
  { m with mVertices := m.mVertices ++ [v] }

/-- `void appendNormal( const Vec3f &v ) { mNormals.push_back( v ); }` -/
def TriMesh.appendNormal (m : TriMesh) (v : Vec3) : TriMesh :=
  { m with mNormals := m.mNormals ++ [v] }

/-- `void appendColorRgb( const Color &rgb ) { mColorsRGB.push_back( rgb ); }` -/
def TriMesh.appendColorRgb (m : TriMesh) (c : Color) : TriMesh :=
  { m with mColorsRGB := m.mColorsRGB ++ [c] }

/-- `void appendColorRgba( const ColorA &rgba ) { mColorsRGBA.push_back( rgba ); }` -/
def TriMesh.appendColorRgba (m : TriMesh) (c : ColorA) : TriMesh :=
  { m with mColorsRGBA := m.mColorsRGBA ++ [c] }

/-- `void appendTexCoord( const Vec2f &v ) { mTexCoords.push_back( v ); }` -/
def TriMesh.appendTexCoord (m : TriMesh) (v : Vec2) : TriMesh :=
  { m with mTexCoords := m.mTexCoords ++ [v] }

/-- `void appendTriangle( size_t v0, size_t v1, size_t v2 )
    { mIndices.push_back( v0 ); mIndices.push_back( v1 ); mIndices.push_back( v2 ); }`
The arguments are `size_t` but `mIndices` is `std::vector<uint32_t>`, so each
`push_back` performs the C++ implicit integral conversion, i.e. reduction
modulo `2^32`. -/
def TriMesh.appendTriangle (m : TriMesh) (v0 v1 v2 : ℕ) : TriMesh :=
  { m with mIndices := m.mIndices ++ [v0 % 2^32, v1 % 2^32, v2 % 2^32] }

/-- `size_t getNumIndices() const { return mIndices.size(); }` -/
def TriMesh.getNumIndices (m : TriMesh) : ℕ := m.mIndices.length

/-- `size_t getNumTriangles() const { return mIndices.size() / 3; }` -/
def TriMesh.getNumTriangles (m : TriMesh) : ℕ := m.mIndices.length / 3

/-- `size_t getNumVertices() const { return mVertices.size(); }` -/
def TriMesh.getNumVertices (m : TriMesh) : ℕ := m.mVertices.length

/-- Embedding of `cinder::TriMesh2d` restricted to the members claim C9
needs: `mVertices` is `std::vector<Vec2f>` and `mIndices` is
`std::vector<size_t>`, so its `appendTriangle` stores `size_t` arguments
with no conversion. -/
structure TriMesh2d where
  mVertices : List Vec2
  mIndices  : List ℕ
deriving DecidableEq, Repr

/-- `void appendTriangle( size_t v0, size_t v1, size_t v2 )
    { mIndices.push_back( v0 ); mIndices.push_back( v1 ); mIndices.push_back( v2 ); }`
for `TriMesh2d`: `mIndices` is `std::vector<size_t>`, same type as the
arguments, so the values are stored unchanged. -/
def TriMesh2d.appendTriangle (m : TriMesh2d) (v0 v1 v2 : ℕ) : TriMesh2d :=
  { m with mIndices := m.mIndices ++ [v0, v1, v2] }

/-- C7: for every index-buffer length, including lengths that are not a
multiple of 3, `getNumTriangles()` equals `getNumIndices() / 3` under integer
division; when the length is not a multiple of 3 the remainder is dropped
(`3 * getNumTriangles() < getNumIndices()`). -/
theorem getNumTriangles_div_three (m : TriMesh) :
    m.getNumTriangles = m.getNumIndices / 3 ∧
    (m.getNumIndices % 3 ≠ 0 → 3 * m.getNumTriangles < m.getNumIndices) := by
  refine ⟨rfl, fun h => ?_⟩
  have h3 : 0 < 3 := by omega
  have := Nat.div_add_mod m.getNumIndices 3
  have hlt : m.getNumIndices % 3 < 3 := Nat.mod_lt _ h3
  unfold TriMesh.getNumTriangles TriMesh.getNumIndices at *
  omega

/-- Witness for C7 at a concrete mesh with 7 indices (7 % 3 ≠ 0,
`getNumTriangles = 2`, `3 * 2 < 7`). -/
theorem getNumTriangles_div_three_witness :
    (⟨[], [], [], [], [], [0, 1, 2, 0, 2, 3, 5]⟩ : TriMesh).getNumTriangles =
        (⟨[], [], [], [], [], [0, 1, 2, 0, 2, 3, 5]⟩ : TriMesh).getNumIndices / 3 ∧
      ((⟨[], [], [], [], [], [0, 1, 2, 0, 2, 3, 5]⟩ : TriMesh).getNumIndices % 3 ≠ 0 →
        3 * (⟨[], [], [], [], [], [0, 1, 2, 0, 2, 3, 5]⟩ : TriMesh).getNumTriangles <
          (⟨[], [], [], [], [], [0, 1, 2, 0, 2, 3, 5]⟩ : TriMesh).getNumIndices) :=
  getNumTriangles_div_three ⟨[], [], [], [], [], [0, 1, 2, 0, 2, 3, 5]⟩

/-- C8: `hasNormals()` is true iff the normals buffer is non-empty, and
likewise `hasColorsRGB()`, `hasColorsRGBA()` and `hasTexCoords()` for their
buffers. -/
theorem hasBuffer_iff_nonempty (m : TriMesh) :
    (m.hasNormals = true ↔ m.mNormals ≠ []) ∧
    (m.hasColorsRGB = true ↔ m.mColorsRGB ≠ []) ∧
    (m.hasColorsRGBA = true ↔ m.mColorsRGBA ≠ []) ∧
    (m.hasTexCoords = true ↔ m.mTexCoords ≠ []) := by
  refine ⟨?_, ?_, ?_, ?_⟩ <;>
    simp [TriMesh.hasNormals, TriMesh.hasColorsRGB, TriMesh.hasColorsRGBA,
      TriMesh.hasTexCoords, List.isEmpty_iff]

/-- C9: `TriMesh::appendTriangle` takes `size_t` arguments but stores them in
the `uint32_t` index buffer: each stored index is the argument reduced modulo
`2^32`, so an argument `≥ 2^32` is silently truncated (stored value differs
from the argument) rather than rejected, while `TriMesh2d::appendTriangle`
(whose index buffer is `size_t`) stores the arguments unchanged. -/
theorem appendTriangle_truncates (m : TriMesh) (m2 : TriMesh2d) (v0 v1 v2 : ℕ) :
    (m.appendTriangle v0 v1 v2).mIndices =
        m.mIndices ++ [v0 % 2^32, v1 % 2^32, v2 % 2^32] ∧
    (∀ v ∈ [v0, v1, v2], 2^32 ≤ v → v % 2^32 ≠ v) ∧
    (m2.appendTriangle v0 v1 v2).mIndices = m2.mIndices ++ [v0, v1, v2] := by
  refine ⟨rfl, ?_, rfl⟩
  intro v _ hv
  have := Nat.mod_lt v (show 0 < 2^32 by norm_num)
  omega

/-- Witness for C9 at `v0 = 2^32` (stored as `0`), `v1 = 2^32 + 5`
(stored as `5`), `v2 = 7` (stored unchanged), on empty meshes. -/
theorem appendTriangle_truncates_witness :
    (TriMesh.empty.appendTriangle (2^32) (2^32 + 5) 7).mIndices =
        [] ++ [2^32 % 2^32, (2^32 + 5) % 2^32, 7 % 2^32] ∧
    (∀ v ∈ [2^32, 2^32 + 5, 7], 2^32 ≤ v → v % 2^32 ≠ v) ∧
    ((⟨[], []⟩ : TriMesh2d).appendTriangle (2^32) (2^32 + 5) 7).mIndices =
        [] ++ [2^32, 2^32 + 5, 7] :=
  appendTriangle_truncates TriMesh.empty ⟨[], []⟩ (2^32) (2^32 + 5) 7

/-- C10: every single-element append (`appendVertex`, `appendNormal`,
`appendColorRgb`, `appendColorRgba`, `appendTexCoord`, `appendTriangle`)
appends at the end of its own target buffer and leaves every other buffer
(hence every other `getNum*` count, and all previously stored elements of
the target buffer) unchanged. -/
theorem append_frame (m : TriMesh) (v : Vec3) (n : Vec3) (c : Color)
    (ca : ColorA) (t : Vec2) (i0 i1 i2 : ℕ) :
    (m.appendVertex v = { m with mVertices := m.mVertices ++ [v] }) ∧
    (m.appendNormal n = { m with mNormals := m.mNormals ++ [n] }) ∧
    (m.appendColorRgb c = { m with mColorsRGB := m.mColorsRGB ++ [c] }) ∧
    (m.appendColorRgba ca = { m with mColorsRGBA := m.mColorsRGBA ++ [ca] }) ∧
    (m.appendTexCoord t = { m with mTexCoords := m.mTexCoords ++ [t] }) ∧
    (m.appendTriangle i0 i1 i2 =
      { m with mIndices := m.mIndices ++ [i0 % 2^32, i1 % 2^32, i2 % 2^32] }) :=
  ⟨rfl, rfl, rfl, rfl, rfl, rfl⟩

/-- Componentwise order on `Vec3`: every component of `a` is at most the
corresponding component of `b`. -/
def vecLe (a b : Vec3) : Prop := a.x ≤ b.x ∧ a.y ≤ b.y ∧ a.z ≤ b.z

instance (a b : Vec3) : Decidable (vecLe a b) := by
  unfold vecLe
  infer_instance

/-- Componentwise minimum of two `Vec3`. -/
def vecMin (a b : Vec3) : Vec3 := ⟨min a.x b.x, min a.y b.y, min a.z b.z⟩

/-- Componentwise maximum of two `Vec3`. -/
def vecMax (a b : Vec3) : Vec3 := ⟨max a.x b.x, max a.y b.y, max a.z b.z⟩

/-- Embedding of `cinder::AxisAlignedBox3f` as its two corner points. -/
structure AxisAlignedBox3f where
  aMin : Vec3
  aMax : Vec3
deriving DecidableEq, Repr

/-- Modelled from the spec: the body of `TriMesh::calcBoundingBox` is in a
translation unit missing from the sources.  Per spec section 4.2 it returns
the minimal axis-aligned box enclosing every vertex, accumulating a
componentwise min/max over the vertex buffer; for an empty vertex buffer it
returns a documented degenerate sentinel, chosen here as the zero-volume box
at the origin. -/
def TriMesh.calcBoundingBox (m : TriMesh) : AxisAlignedBox3f :=
  match m.mVertices with
  | [] => ⟨⟨0, 0, 0⟩, ⟨0, 0, 0⟩⟩
  | v :: rest => ⟨rest.foldl vecMin v, rest.foldl vecMax v⟩

theorem vecLe_refl (a : Vec3) : vecLe a a := ⟨le_refl _, le_refl _, le_refl _⟩

theorem vecMin_le_left (a b : Vec3) : vecLe (vecMin a b) a :=
  ⟨min_le_left _ _, min_le_left _ _, min_le_left _ _⟩

theorem vecMin_le_right (a b : Vec3) : vecLe (vecMin a b) b :=
  ⟨min_le_right _ _, min_le_right _ _, min_le_right _ _⟩

theorem le_vecMin (a b c : Vec3) (h1 : vecLe c a) (h2 : vecLe c b) :
    vecLe c (vecMin a b) :=
  ⟨le_min h1.1 h2.1, le_min h1.2.1 h2.2.1, le_min h1.2.2 h2.2.2⟩

theorem vecMax_ge_left (a b : Vec3) : vecLe a (vecMax a b) :=
  ⟨le_max_left _ _, le_max_left _ _, le_max_left _ _⟩

theorem vecMax_ge_right (a b : Vec3) : vecLe b (vecMax a b) :=
  ⟨le_max_right _ _, le_max_right _ _, le_max_right _ _⟩

theorem vecMax_le (a b c : Vec3) (h1 : vecLe a c) (h2 : vecLe b c) :
    vecLe (vecMax a b) c :=
  ⟨max_le h1.1 h2.1, max_le h1.2.1 h2.2.1, max_le h1.2.2 h2.2.2⟩

theorem le_trans_vec {a b c : Vec3} (h1 : vecLe a b) (h2 : vecLe b c) :
    vecLe a c :=
  ⟨le_trans h1.1 h2.1, le_trans h1.2.1 h2.2.1, le_trans h1.2.2 h2.2.2⟩

/-- The min-fold is a lower bound of its seed and of every list element. -/
theorem foldl_vecMin_lb (l : List Vec3) :
    ∀ a : Vec3, vecLe (l.foldl vecMin a) a ∧ ∀ v ∈ l, vecLe (l.foldl vecMin a) v := by
  induction l with
  | nil => intro a; exact ⟨vecLe_refl a, by simp⟩
  | cons b t ih =>
      intro a
      obtain ⟨hseed, hmem⟩ := ih (vecMin a b)
      refine ⟨le_trans_vec hseed (vecMin_le_left a b), ?_⟩
      intro v hv
      rcases List.mem_cons.mp hv with h | h
      · cases h; exact le_trans_vec hseed (vecMin_le_right a b)
      · exact hmem v h

/-- The min-fold is the greatest lower bound: any common lower bound of the
seed and the elements is below it. -/
theorem foldl_vecMin_glb (l : List Vec3) :
    ∀ a lo : Vec3, vecLe lo a → (∀ v ∈ l, vecLe lo v) →
      vecLe lo (l.foldl vecMin a) := by
  induction l with
  | nil => intro a lo ha _; exact ha
  | cons b t ih =>
      intro a lo ha hl
      exact ih (vecMin a b) lo
        (le_vecMin a b lo ha (hl b (List.mem_cons_self b t)))
        (fun v hv => hl v (List.mem_cons_of_mem b hv))

/-- The max-fold is an upper bound of its seed and of every list element. -/
theorem foldl_vecMax_ub (l : List Vec3) :
    ∀ a : Vec3, vecLe a (l.foldl vecMax a) ∧ ∀ v ∈ l, vecLe v (l.foldl vecMax a) := by
  induction l with
  | nil => intro a; exact ⟨vecLe_refl a, by simp⟩
  | cons b t ih =>
      intro a
      obtain ⟨hseed, hmem⟩ := ih (vecMax a b)
      refine ⟨le_trans_vec (vecMax_ge_left a b) hseed, ?_⟩
      intro v hv
      rcases List.mem_cons.mp hv with h | h
      · cases h; exact le_trans_vec (vecMax_ge_right a b) hseed
      · exact hmem v h

/-- The max-fold is the least upper bound. -/
theorem foldl_vecMax_lub (l : List Vec3) :
    ∀ a hi : Vec3, vecLe a hi → (∀ v ∈ l, vecLe v hi) →
      vecLe (l.foldl vecMax a) hi := by
  induction l with
  | nil => intro a hi ha _; exact ha
  | cons b t ih =>
      intro a hi ha hl
      exact ih (vecMax a b) hi
        (vecMax_le a b hi ha (hl b (List.mem_cons_self b t)))
        (fun v hv => hl v (List.mem_cons_of_mem b hv))

/-- C6: `calcBoundingBox()` on an empty mesh returns the documented
degenerate sentinel box (the zero-volume box at the origin); on a
single-vertex mesh it returns the zero-volume box at that vertex; on
vertices `(0,0,0)` and `(2,2,2)` it returns the box with those corners; and
on every non-empty mesh it returns the minimal axis-aligned box enclosing
every vertex (every vertex lies between `aMin` and `aMax`, and any pair of
componentwise bounds enclosing all vertices encloses that box). -/
theorem calcBoundingBox_spec :
    (∀ m : TriMesh, m.mVertices = [] →
      m.calcBoundingBox = ⟨⟨0, 0, 0⟩, ⟨0, 0, 0⟩⟩) ∧
    (∀ (m : TriMesh) (v : Vec3), m.mVertices = [v] →
      m.calcBoundingBox = ⟨v, v⟩) ∧
    (∀ m : TriMesh, m.mVertices = [⟨0, 0, 0⟩, ⟨2, 2, 2⟩] →
      m.calcBoundingBox = ⟨⟨0, 0, 0⟩, ⟨2, 2, 2⟩⟩) ∧
    (∀ m : TriMesh, m.mVertices ≠ [] →
      (∀ v ∈ m.mVertices,
        vecLe m.calcBoundingBox.aMin v ∧ vecLe v m.calcBoundingBox.aMax) ∧
      (∀ lo hi : Vec3, (∀ v ∈ m.mVertices, vecLe lo v ∧ vecLe v hi) →
        vecLe lo m.calcBoundingBox.aMin ∧ vecLe m.calcBoundingBox.aMax hi)) := by
  refine ⟨?_, ?_, ?_, ?_⟩
  · intro m h
    unfold TriMesh.calcBoundingBox
    rw [h]
  · intro m v h
    unfold TriMesh.calcBoundingBox
    rw [h]
    rfl
  · intro m h
    unfold TriMesh.calcBoundingBox
    rw [h]
    decide
  · intro m hm
    obtain ⟨a, rest, hv⟩ : ∃ a rest, m.mVertices = a :: rest := by
      cases hml : m.mVertices with
      | nil => exact absurd hml hm
      | cons a rest => exact ⟨a, rest, rfl⟩
    have hbox : m.calcBoundingBox = ⟨rest.foldl vecMin a, rest.foldl vecMax a⟩ := by
      unfold TriMesh.calcBoundingBox
      rw [hv]
    constructor
    · intro v hvmem
      rw [hv] at hvmem
      rw [hbox]
      rcases List.mem_cons.mp hvmem with h | h
      · cases h
        exact ⟨(foldl_vecMin_lb rest a).1, (foldl_vecMax_ub rest a).1⟩
      · exact ⟨(foldl_vecMin_lb rest a).2 v h, (foldl_vecMax_ub rest a).2 v h⟩
    · intro lo hi hall
      rw [hv] at hall
      rw [hbox]
      have ha := hall a (List.mem_cons_self a rest)
      refine ⟨foldl_vecMin_glb rest a lo ha.1 ?_, foldl_vecMax_lub rest a hi ha.2 ?_⟩
      · exact fun v hvm => (hall v (List.mem_cons_of_mem a hvm)).1
      · exact fun v hvm => (hall v (List.mem_cons_of_mem a hvm)).2

/-- Witness for C6: the empty-mesh, single-vertex and two-vertex clauses of
`calcBoundingBox_spec` instantiated at concrete meshes, and the minimality
clause instantiated at the two-vertex mesh. -/
theorem calcBoundingBox_spec_witness :
    TriMesh.empty.calcBoundingBox = ⟨⟨0, 0, 0⟩, ⟨0, 0, 0⟩⟩ ∧
    (⟨[⟨3, 4, 5⟩], [], [], [], [], []⟩ : TriMesh).calcBoundingBox =
      ⟨⟨3, 4, 5⟩, ⟨3, 4, 5⟩⟩ ∧
    (⟨[⟨0, 0, 0⟩, ⟨2, 2, 2⟩], [], [], [], [], []⟩ : TriMesh).calcBoundingBox =
      ⟨⟨0, 0, 0⟩, ⟨2, 2, 2⟩⟩ ∧
    (∀ v ∈ (⟨[⟨0, 0, 0⟩, ⟨2, 2, 2⟩], [], [], [], [], []⟩ : TriMesh).mVertices,
      vecLe (⟨[⟨0, 0, 0⟩, ⟨2, 2, 2⟩], [], [], [], [], []⟩ :
          TriMesh).calcBoundingBox.aMin v ∧
      vecLe v (⟨[⟨0, 0, 0⟩, ⟨2, 2, 2⟩], [], [], [], [], []⟩ :
          TriMesh).calcBoundingBox.aMax) :=
  ⟨calcBoundingBox_spec.1 TriMesh.empty rfl,
   calcBoundingBox_spec.2.1 ⟨[⟨3, 4, 5⟩], [], [], [], [], []⟩ ⟨3, 4, 5⟩ rfl,
   calcBoundingBox_spec.2.2.1 ⟨[⟨0, 0, 0⟩, ⟨2, 2, 2⟩], [], [], [], [], []⟩ rfl,
   (calcBoundingBox_spec.2.2.2 ⟨[⟨0, 0, 0⟩, ⟨2, 2, 2⟩], [], [], [], [], []⟩
     (by simp)).1⟩


/-- Modelled from the spec: the body of `TriMesh::getTriangleVertices` is in
a translation unit missing from the sources.  Per spec section 4.1 it fails
with an out-of-range error if `idx >= getNumTriangles()`, must fail (rather
than read invalid memory) when any of `indices[3*idx]..indices[3*idx+2]`
is out of range for `vertices`, and otherwise copies the three vertex
positions addressed by those indices into `a`, `b`, `c`.  The failure is
modelled as `none`; the member is `const`, so the mesh is untouched by
construction. -/
def TriMesh.getTriangleVertices (m : TriMesh) (idx : ℕ) :
    Option (Vec3 × Vec3 × Vec3) :=
  if idx < m.getNumTriangles then
    m.mIndices[3*idx]?.bind fun i0 =>
    m.mIndices[3*idx+1]?.bind fun i1 =>
    m.mIndices[3*idx+2]?.bind fun i2 =>
    m.mVertices[i0]?.bind fun a =>
    m.mVertices[i1]?.bind fun b =>
    m.mVertices[i2]?.bind fun c =>
    some (a, b, c)
  else none

/-- C3: `getTriangleVertices(idx, &a, &b, &c)` succeeds exactly when
`idx < getNumTriangles()` and each of `indices[3*idx]`, `indices[3*idx+1]`,
`indices[3*idx+2]` is `< vertices.size()` (otherwise it fails with an
out-of-range error), and on success it returns exactly
`vertices[indices[3*idx]], vertices[indices[3*idx+1]],
vertices[indices[3*idx+2]]`; the mesh is left unchanged (the operation is a
pure query in this embedding, matching the `const` member). -/
theorem getTriangleVertices_spec (m : TriMesh) (idx : ℕ) :
    ((m.getTriangleVertices idx).isSome = true ↔
      idx < m.getNumTriangles ∧
      m.mIndices.getD (3*idx) 0 < m.getNumVertices ∧
      m.mIndices.getD (3*idx+1) 0 < m.getNumVertices ∧
      m.mIndices.getD (3*idx+2) 0 < m.getNumVertices) ∧
    (idx < m.getNumTriangles →
      m.mIndices.getD (3*idx) 0 < m.getNumVertices →
      m.mIndices.getD (3*idx+1) 0 < m.getNumVertices →
      m.mIndices.getD (3*idx+2) 0 < m.getNumVertices →
      m.getTriangleVertices idx =
        some (m.mVertices.getD (m.mIndices.getD (3*idx) 0) ⟨0, 0, 0⟩,
              m.mVertices.getD (m.mIndices.getD (3*idx+1) 0) ⟨0, 0, 0⟩,
              m.mVertices.getD (m.mIndices.getD (3*idx+2) 0) ⟨0, 0, 0⟩)) := by
  by_cases hidx : idx < m.getNumTriangles
  · have hlen : 3*idx+2 < m.mIndices.length := by
      unfold TriMesh.getNumTriangles at hidx
      omega
    have h0 : 3*idx < m.mIndices.length := by omega
    have h1 : 3*idx+1 < m.mIndices.length := by omega
    have e0 : m.mIndices[3*idx]? = some (m.mIndices.getD (3*idx) 0) := by
      rw [List.getElem?_eq_getElem h0, List.getD_eq_getElem _ _ h0]
    have e1 : m.mIndices[3*idx+1]? = some (m.mIndices.getD (3*idx+1) 0) := by
      rw [List.getElem?_eq_getElem h1, List.getD_eq_getElem _ _ h1]
    have e2 : m.mIndices[3*idx+2]? = some (m.mIndices.getD (3*idx+2) 0) := by
      rw [List.getElem?_eq_getElem hlen, List.getD_eq_getElem _ _ hlen]
    unfold TriMesh.getTriangleVertices
    rw [if_pos hidx, e0, e1, e2]
    simp only [Option.some_bind]
    rcases hw0 : m.mVertices[m.mIndices.getD (3*idx) 0]? with _ | a
    · rw [List.getElem?_eq_none_iff] at hw0
      unfold TriMesh.getNumVertices
      simp only [Option.none_bind, Option.isSome_none]
      refine ⟨⟨fun h => by simp at h, fun h => by omega⟩, fun _ h0' _ _ => by omega⟩
    · rcases hw1 : m.mVertices[m.mIndices.getD (3*idx+1) 0]? with _ | b
      · rw [List.getElem?_eq_none_iff] at hw1
        unfold TriMesh.getNumVertices
        simp only [Option.some_bind, Option.none_bind, Option.isSome_none]
        refine ⟨⟨fun h => by simp at h, fun h => by omega⟩, fun _ _ h1' _ => by omega⟩
      · rcases hw2 : m.mVertices[m.mIndices.getD (3*idx+2) 0]? with _ | c
        · rw [List.getElem?_eq_none_iff] at hw2
          unfold TriMesh.getNumVertices
          simp only [Option.some_bind, Option.none_bind, Option.isSome_none]
          refine ⟨⟨fun h => by simp at h, fun h => by omega⟩, fun _ _ _ h2' => by omega⟩
        · obtain ⟨hb0, ha0⟩ := List.getElem?_eq_some_iff.mp hw0
          obtain ⟨hb1, hb1e⟩ := List.getElem?_eq_some_iff.mp hw1
          obtain ⟨hb2, hb2e⟩ := List.getElem?_eq_some_iff.mp hw2
          unfold TriMesh.getNumVertices
          simp only [Option.some_bind, Option.isSome_some]
          refine ⟨⟨fun _ => ⟨hidx, hb0, hb1, hb2⟩, fun _ => trivial⟩, ?_⟩
          intro _ _ _ _
          rw [List.getD_eq_getElem _ _ hb0, List.getD_eq_getElem _ _ hb1,
            List.getD_eq_getElem _ _ hb2, ha0, hb1e, hb2e]
  · unfold TriMesh.getTriangleVertices
    rw [if_neg hidx]
    constructor
    · simp only [Option.isSome_none, Bool.false_eq_true, false_iff]
      intro h
      exact hidx h.1
    · intro h
      exact absurd h hidx

/-- Witness for C3: the mesh holding the triangle `(0,0,0),(1,0,0),(0,1,0)`
with indices `[0,1,2]`; `getTriangleVertices 0` returns those three
vertices. -/
theorem getTriangleVertices_spec_witness :
    (⟨[⟨0, 0, 0⟩, ⟨1, 0, 0⟩, ⟨0, 1, 0⟩], [], [], [], [],
        [0, 1, 2]⟩ : TriMesh).getTriangleVertices 0 =
      some (⟨0, 0, 0⟩, ⟨1, 0, 0⟩, ⟨0, 1, 0⟩) := by
  have h := (getTriangleVertices_spec
    ⟨[⟨0, 0, 0⟩, ⟨1, 0, 0⟩, ⟨0, 1, 0⟩], [], [], [], [], [0, 1, 2]⟩ 0).2
    (by decide) (by decide) (by decide) (by decide)
  exact h

/-- The zero 3-vector. -/
def vzero : Vec3 := ⟨0, 0, 0⟩

/-- Componentwise vector addition. -/
def vadd (a b : Vec3) : Vec3 := ⟨a.x + b.x, a.y + b.y, a.z + b.z⟩

/-- Componentwise vector subtraction. -/
def vsub (a b : Vec3) : Vec3 := ⟨a.x - b.x, a.y - b.y, a.z - b.z⟩

/-- Scalar multiple of a vector. -/
def scaleV (c : ℚ) (v : Vec3) : Vec3 := ⟨c * v.x, c * v.y, c * v.z⟩

/-- The cross product of two 3-vectors. -/
def cross (a b : Vec3) : Vec3 :=
  ⟨a.y * b.z - a.z * b.y, a.z * b.x - a.x * b.z, a.x * b.y - a.y * b.x⟩

/-- The un-normalized face normal of a triangle, `(v1-v0) × (v2-v0)` (spec
section 4.3). -/
def faceNormal (v0 v1 v2 : Vec3) : Vec3 := cross (vsub v1 v0) (vsub v2 v0)

/-- Squared Euclidean length. -/
def normSq (v : Vec3) : ℚ := v.x * v.x + v.y * v.y + v.z * v.z

/-- Kernel-reducible integer square root (largest `k` with `k*k ≤ n`),
computed by a structural linear scan so that concrete instances evaluate. -/
def sqrtLin (n : ℕ) : ℕ :=
  (List.range (n + 1)).foldl (fun acc k => if k * k ≤ n then k else acc) 0

/-- Exact rational square root: `some l` with `l * l = q` when such a
non-negative rational exists (a reduced rational is a square exactly when
its numerator and denominator are), `none` otherwise. -/
def ratSqrt (q : ℚ) : Option ℚ :=
  if 0 ≤ q then
    if sqrtLin q.num.toNat * sqrtLin q.num.toNat = q.num.toNat ∧
        sqrtLin q.den * sqrtLin q.den = q.den then
      some ((sqrtLin q.num.toNat : ℚ) / (sqrtLin q.den : ℚ))
    else none
  else none

/-- Modelled from the spec: the normalization stage of
`TriMesh::recalculateNormals` (spec section 4.3) divides each accumulator by
its Euclidean length, with a zero accumulator resolving to the well-defined
zero default rather than dividing by zero.  In this exact-rational embedding
the division is performed whenever the length is itself rational (which is
the case in every situation the claims evaluate concretely); an accumulator
of irrational length is left as the unscaled direction vector. -/
def normalizeV (v : Vec3) : Vec3 :=
  match ratSqrt (normSq v) with
  | some l => if l = 0 then vzero else scaleV (1/l) v
  | none => v

/-- Groups a flat index buffer into its complete leading triples, dropping a
trailing remainder of fewer than three indices, mirroring
`getNumTriangles = indices.size() / 3`. -/
def triplesOf : List ℕ → List (ℕ × ℕ × ℕ)
  | i0 :: i1 :: i2 :: rest => (i0, i1, i2) :: triplesOf rest
  | _ => []

/-- Adds `v` into position `i` of the accumulator list. -/
def addAt (acc : List Vec3) (i : ℕ) (v : Vec3) : List Vec3 :=
  acc.set i (vadd (acc.getD i vzero) v)

/-- One accumulation step of `recalculateNormals`: looks up the triangle's
three vertices (failing when an index is out of range), computes the face
normal and adds it into the accumulator of each of the three vertices. -/
def accumTriangle (verts : List Vec3) (acc : List Vec3) (t : ℕ × ℕ × ℕ) :
    Option (List Vec3) :=
  verts[t.1]?.bind fun v0 =>
  verts[t.2.1]?.bind fun v1 =>
  verts[t.2.2]?.bind fun v2 =>
  some (addAt (addAt (addAt acc t.1 (faceNormal v0 v1 v2))
    t.2.1 (faceNormal v0 v1 v2)) t.2.2 (faceNormal v0 v1 v2))

/-- Runs `accumTriangle` over every triangle. -/
def accumAll (verts : List Vec3) (ts : List (ℕ × ℕ × ℕ)) (acc : List Vec3) :
    Option (List Vec3) :=
  match ts with
  | [] => some acc
  | t :: rest => (accumTriangle verts acc t).bind (accumAll verts rest)

/-- Modelled from the spec: the body of `TriMesh::recalculateNormals` is in
a translation unit missing from the sources.  Per spec section 4.3 it
discards the current normals buffer, accumulates the un-normalized
cross-product face normal `(v1-v0) × (v2-v0)` of every triangle into an
accumulator for each of the triangle's three vertices, and normalizes each
accumulator, producing one normal per vertex; an out-of-range index fails
with an out-of-range error, modelled as `none`. -/
def TriMesh.recalculateNormals (m : TriMesh) : Option TriMesh :=
  (accumAll m.mVertices (triplesOf m.mIndices)
      (List.replicate m.mVertices.length vzero)).map
    fun acc => { m with mNormals := acc.map normalizeV }

/-- The contribution of a single triangle to the accumulator of vertex `i`:
its face normal once for each of the triangle's three corners that equals
`i`. -/
def triContrib (verts : List Vec3) (t : ℕ × ℕ × ℕ) (i : ℕ) : Vec3 :=
  vadd (vadd (if t.1 = i then faceNormal (verts.getD t.1 vzero)
      (verts.getD t.2.1 vzero) (verts.getD t.2.2 vzero) else vzero)
    (if t.2.1 = i then faceNormal (verts.getD t.1 vzero)
      (verts.getD t.2.1 vzero) (verts.getD t.2.2 vzero) else vzero))
    (if t.2.2 = i then faceNormal (verts.getD t.1 vzero)
      (verts.getD t.2.1 vzero) (verts.getD t.2.2 vzero) else vzero)

/-- The total accumulated (un-normalized) normal of vertex `i`: the sum of
the face-normal contributions of every triangle, in buffer order. -/
def sumContrib (verts : List Vec3) (ts : List (ℕ × ℕ × ℕ)) (i : ℕ) : Vec3 :=
  match ts with
  | [] => vzero
  | t :: rest => vadd (triContrib verts t i) (sumContrib verts rest i)

theorem Vec3.ext3 (a b : Vec3) (hx : a.x = b.x) (hy : a.y = b.y)
    (hz : a.z = b.z) : a = b := by
  cases a
  cases b
  simp_all

theorem vaddRight_vzero (v : Vec3) : vadd v vzero = v := by
  apply Vec3.ext3 <;> simp [vadd, vzero]

theorem vaddLeft_vzero (v : Vec3) : vadd vzero v = v := by
  apply Vec3.ext3 <;> simp [vadd, vzero]

theorem vadd3_assoc (a b c : Vec3) : vadd (vadd a b) c = vadd a (vadd b c) := by
  apply Vec3.ext3 <;> (simp [vadd]; ring)

theorem getD_set_lt (l : List Vec3) (j i : ℕ) (w : Vec3) (hj : j < l.length) :
    (l.set j w).getD i vzero = if j = i then w else l.getD i vzero := by
  rw [List.getD_eq_getElem?_getD, List.getElem?_set]
  by_cases h : j = i
  · rw [if_pos h, if_pos h, if_pos hj]
    rfl
  · rw [if_neg h, if_neg h, List.getD_eq_getElem?_getD]

theorem addAt_length (acc : List Vec3) (i : ℕ) (v : Vec3) :
    (addAt acc i v).length = acc.length := by
  unfold addAt
  exact List.length_set acc i _

/-- A successful accumulation step adds exactly the triangle's contribution
to every accumulator position. -/
theorem accumTriangle_some (verts acc : List Vec3) (t : ℕ × ℕ × ℕ)
    (hacc : acc.length = verts.length)
    (h0 : t.1 < verts.length) (h1 : t.2.1 < verts.length)
    (h2 : t.2.2 < verts.length) :
    ∃ acc', accumTriangle verts acc t = some acc' ∧
      acc'.length = acc.length ∧
      ∀ i, acc'.getD i vzero = vadd (acc.getD i vzero) (triContrib verts t i) := by
  unfold accumTriangle
  rw [List.getElem?_eq_getElem h0, List.getElem?_eq_getElem h1,
    List.getElem?_eq_getElem h2]
  simp only [Option.some_bind]
  refine ⟨_, rfl, ?_, ?_⟩
  · rw [addAt_length, addAt_length, addAt_length]
  · intro i
    have e0 : verts[t.1] = verts.getD t.1 vzero := (List.getD_eq_getElem _ _ h0).symm
    have e1 : verts[t.2.1] = verts.getD t.2.1 vzero := (List.getD_eq_getElem _ _ h1).symm
    have e2 : verts[t.2.2] = verts.getD t.2.2 vzero := (List.getD_eq_getElem _ _ h2).symm
    rw [e0, e1, e2]
    set fn := faceNormal (verts.getD t.1 vzero) (verts.getD t.2.1 vzero)
      (verts.getD t.2.2 vzero) with hfn
    have l1 : (addAt acc t.1 fn).length = verts.length := by
      rw [addAt_length, hacc]
    have l2 : (addAt (addAt acc t.1 fn) t.2.1 fn).length = verts.length := by
      rw [addAt_length, l1]
    rw [show addAt (addAt (addAt acc t.1 fn) t.2.1 fn) t.2.2 fn =
      (addAt (addAt acc t.1 fn) t.2.1 fn).set t.2.2
        (vadd ((addAt (addAt acc t.1 fn) t.2.1 fn).getD t.2.2 vzero) fn) from rfl]
    rw [getD_set_lt _ _ _ _ (by rw [l2]; exact h2)]
    rw [show addAt (addAt acc t.1 fn) t.2.1 fn =
      (addAt acc t.1 fn).set t.2.1
        (vadd ((addAt acc t.1 fn).getD t.2.1 vzero) fn) from rfl]
    rw [getD_set_lt _ _ _ _ (by rw [l1]; exact h1),
      getD_set_lt _ _ _ _ (by rw [l1]; exact h1)]
    rw [show addAt acc t.1 fn =
      acc.set t.1 (vadd (acc.getD t.1 vzero) fn) from rfl]
    rw [getD_set_lt _ _ _ _ (by rw [hacc]; exact h0),
      getD_set_lt _ _ _ _ (by rw [hacc]; exact h0),
      getD_set_lt _ _ _ _ (by rw [hacc]; exact h0)]
    unfold triContrib
    rw [← hfn]
    by_cases c2 : t.2.2 = i <;> by_cases c1 : t.2.1 = i <;> by_cases c0 : t.1 = i <;>
      simp only [c0, c1, c2, if_true, if_false, ite_true, ite_false] <;>
      apply Vec3.ext3 <;> simp [vadd, vzero] <;> ring

/-- Running the accumulator over a list of in-range triangles succeeds and
yields, at every position, the seed plus the summed contributions. -/
theorem accumAll_some (verts : List Vec3) (ts : List (ℕ × ℕ × ℕ)) :
    ∀ acc : List Vec3, acc.length = verts.length →
    (∀ t ∈ ts, t.1 < verts.length ∧ t.2.1 < verts.length ∧ t.2.2 < verts.length) →
    ∃ acc', accumAll verts ts acc = some acc' ∧ acc'.length = acc.length ∧
      ∀ i, acc'.getD i vzero = vadd (acc.getD i vzero) (sumContrib verts ts i) := by
  induction ts with
  | nil =>
      intro acc hacc _
      refine ⟨acc, rfl, rfl, fun i => ?_⟩
      rw [show sumContrib verts [] i = vzero from rfl, vaddRight_vzero]
  | cons t rest ih =>
      intro acc hacc hval
      obtain ⟨ht0, ht1, ht2⟩ := hval t (List.mem_cons_self t rest)
      obtain ⟨acc1, he1, hl1, hv1⟩ := accumTriangle_some verts acc t hacc ht0 ht1 ht2
      obtain ⟨acc', he', hl', hv'⟩ := ih acc1 (by rw [hl1, hacc])
        (fun u hu => hval u (List.mem_cons_of_mem t hu))
      refine ⟨acc', ?_, by rw [hl', hl1], fun i => ?_⟩
      · rw [show accumAll verts (t :: rest) acc =
          (accumTriangle verts acc t).bind (accumAll verts rest) from rfl, he1,
          Option.some_bind, he']
      · rw [hv' i, hv1 i,
          show sumContrib verts (t :: rest) i =
            vadd (triContrib verts t i) (sumContrib verts rest i) from rfl,
          vadd3_assoc]

/-- Every index appearing in a complete triple appears in the flat list. -/
theorem triplesOf_subset : ∀ (l : List ℕ) (t : ℕ × ℕ × ℕ), t ∈ triplesOf l →
    t.1 ∈ l ∧ t.2.1 ∈ l ∧ t.2.2 ∈ l
  | [], t, ht => by simp [triplesOf] at ht
  | [a], t, ht => by simp [triplesOf] at ht
  | [a, b], t, ht => by simp [triplesOf] at ht
  | a :: b :: c :: rest, t, ht => by
      rw [show triplesOf (a :: b :: c :: rest) = (a, b, c) :: triplesOf rest
        from rfl] at ht
      rcases List.mem_cons.mp ht with h | h
      · subst h
        exact ⟨List.mem_cons_self _ _,
          List.mem_cons_of_mem _ (List.mem_cons_self _ _),
          List.mem_cons_of_mem _ (List.mem_cons_of_mem _ (List.mem_cons_self _ _))⟩
      · obtain ⟨h1, h2, h3⟩ := triplesOf_subset rest t h
        exact ⟨List.mem_cons_of_mem _ (List.mem_cons_of_mem _
            (List.mem_cons_of_mem _ h1)),
          List.mem_cons_of_mem _ (List.mem_cons_of_mem _
            (List.mem_cons_of_mem _ h2)),
          List.mem_cons_of_mem _ (List.mem_cons_of_mem _
            (List.mem_cons_of_mem _ h3))⟩

/-- Soundness of the exact rational square root. -/
theorem ratSqrt_sound (q l : ℚ) (h : ratSqrt q = some l) : l * l = q := by
  unfold ratSqrt at h
  by_cases hq : 0 ≤ q
  · rw [if_pos hq] at h
    by_cases hc : sqrtLin q.num.toNat * sqrtLin q.num.toNat = q.num.toNat ∧
        sqrtLin q.den * sqrtLin q.den = q.den
    · rw [if_pos hc] at h
      obtain ⟨hn, hd⟩ := hc
      have hl : l = ((sqrtLin q.num.toNat : ℚ)) / ((sqrtLin q.den : ℚ)) :=
        (Option.some.inj h).symm
      have hden0 : q.den ≠ 0 := q.den_nz
      rw [hl, div_mul_div_comm, ← Nat.cast_mul, ← Nat.cast_mul, hn, hd]
      rw [show ((q.num.toNat : ℕ) : ℚ) = ((q.num : ℤ) : ℚ) by
        rw [← Int.cast_natCast, Int.toNat_of_nonneg (Rat.num_nonneg.mpr hq)]]
      exact Rat.num_div_den q
    · rw [if_neg hc] at h
      exact absurd h (by simp)
  · rw [if_neg hq] at h
    exact absurd h (by simp)

theorem normSq_scaleV (c : ℚ) (v : Vec3) : normSq (scaleV c v) = c * c * normSq v := by
  unfold normSq scaleV
  ring

/-- When the accumulator's length is an exactly-representable nonzero
rational, normalization produces a unit vector (squared norm 1). -/
theorem normSq_normalizeV (v : Vec3) (l : ℚ)
    (h : ratSqrt (normSq v) = some l) (hl : l ≠ 0) :
    normSq (normalizeV v) = 1 := by
  unfold normalizeV
  rw [h]
  show normSq (if l = 0 then vzero else scaleV (1/l) v) = 1
  rw [if_neg hl, normSq_scaleV]
  have := ratSqrt_sound (normSq v) l h
  rw [← this]
  field_simp

theorem getD_map_normalizeV (l : List Vec3) (i : ℕ) (hi : i < l.length) :
    (l.map normalizeV).getD i vzero = normalizeV (l.getD i vzero) := by
  rw [List.getD_eq_getElem _ _ (by simpa using hi), List.getElem_map,
    List.getD_eq_getElem _ _ hi]

/-- C1: on every mesh whose indices are all `< vertices.size()`,
`recalculateNormals()` succeeds, discards the existing normals buffer (the
result does not depend on it), computes one normal per vertex
(`normals.size() == vertices.size()`) leaving all other buffers unchanged,
and the normal of vertex `i` is the normalization of the sum over all
triangles of the un-normalized face normal `(v1-v0) × (v2-v0)`, accumulated
once for each of the triangle's corners equal to `i`; whenever the
accumulated vector's length is a nonzero exactly-representable rational the
resulting normal has unit (squared) length. -/
theorem recalculateNormals_spec (m : TriMesh)
    (h : ∀ i ∈ m.mIndices, i < m.getNumVertices) :
    ∃ m', m.recalculateNormals = some m' ∧
      m'.mNormals.length = m.mVertices.length ∧
      m'.mVertices = m.mVertices ∧
      m'.mColorsRGB = m.mColorsRGB ∧
      m'.mColorsRGBA = m.mColorsRGBA ∧
      m'.mTexCoords = m.mTexCoords ∧
      m'.mIndices = m.mIndices ∧
      (∀ ns : List Vec3,
        TriMesh.recalculateNormals { m with mNormals := ns } = some m') ∧
      (∀ i, i < m.mVertices.length →
        m'.mNormals.getD i vzero =
          normalizeV (sumContrib m.mVertices (triplesOf m.mIndices) i)) ∧
      (∀ i l, i < m.mVertices.length →
        ratSqrt (normSq (sumContrib m.mVertices (triplesOf m.mIndices) i)) =
          some l →
        l ≠ 0 → normSq (m'.mNormals.getD i vzero) = 1) := by
  have hval : ∀ t ∈ triplesOf m.mIndices, t.1 < m.mVertices.length ∧
      t.2.1 < m.mVertices.length ∧ t.2.2 < m.mVertices.length := by
    intro t ht
    obtain ⟨h1, h2, h3⟩ := triplesOf_subset m.mIndices t ht
    exact ⟨h _ h1, h _ h2, h _ h3⟩
  obtain ⟨acc, hacc, hlen, hget⟩ := accumAll_some m.mVertices
    (triplesOf m.mIndices) (List.replicate m.mVertices.length vzero)
    (List.length_replicate _ _) hval
  have hlen' : acc.length = m.mVertices.length := by
    rw [hlen, List.length_replicate]
  have hrep : ∀ i, (List.replicate m.mVertices.length vzero).getD i vzero = vzero := by
    intro i
    rw [List.getD_eq_getElem?_getD]
    exact List.getElem?_getD_replicate_default_eq _ _ _
  have hnorm : ∀ i, i < m.mVertices.length →
      (acc.map normalizeV).getD i vzero =
        normalizeV (sumContrib m.mVertices (triplesOf m.mIndices) i) := by
    intro i hi
    rw [getD_map_normalizeV acc i (by rw [hlen']; exact hi), hget i, hrep i,
      vaddLeft_vzero]
  refine ⟨{ m with mNormals := acc.map normalizeV }, ?_, ?_, rfl, rfl, rfl, rfl, rfl,
    ?_, hnorm, ?_⟩
  · unfold TriMesh.recalculateNormals
    rw [hacc]
    rfl
  · rw [show ({ m with mNormals := acc.map normalizeV } : TriMesh).mNormals =
      acc.map normalizeV from rfl, List.length_map, hlen']
  · intro ns
    unfold TriMesh.recalculateNormals
    rw [show ({ m with mNormals := ns } : TriMesh).mVertices = m.mVertices from rfl,
      show ({ m with mNormals := ns } : TriMesh).mIndices = m.mIndices from rfl,
      hacc]
    rfl
  · intro i l hi hsq hl
    rw [show ({ m with mNormals := acc.map normalizeV } : TriMesh).mNormals =
      acc.map normalizeV from rfl, hnorm i hi]
    exact normSq_normalizeV _ l hsq hl

/-- The normalized accumulator of each vertex of the single triangle
`(0,0,0), (1,0,0), (0,1,0)` with indices `[0,1,2]` is `(0,0,1)`. -/
theorem exTriangle_normal (i : ℕ) (hi : i < 3) :
    normalizeV (sumContrib [⟨0, 0, 0⟩, ⟨1, 0, 0⟩, ⟨0, 1, 0⟩]
      (triplesOf [0, 1, 2]) i) = ⟨0, 0, 1⟩ := by
  have hsum : sumContrib [⟨0, 0, 0⟩, ⟨1, 0, 0⟩, ⟨0, 1, 0⟩]
      (triplesOf [0, 1, 2]) i = ⟨0, 0, 1⟩ := by
    interval_cases i <;>
      (apply Vec3.ext3 <;>
        simp [sumContrib, triContrib, triplesOf, faceNormal, cross, vsub,
          vadd, vzero, List.getD])
  rw [hsum]
  have hn1 : normSq (⟨0, 0, 1⟩ : Vec3) = 1 := by
    simp [normSq]
  have hrs : ratSqrt (1 : ℚ) = some 1 := by
    unfold ratSqrt
    rw [if_pos (by norm_num)]
    rw [show ((1 : ℚ).num.toNat) = 1 by norm_num,
      show ((1 : ℚ).den) = 1 from Rat.den_one,
      show sqrtLin 1 = 1 from rfl]
    norm_num
  unfold normalizeV
  rw [hn1, hrs]
  show (if (1 : ℚ) = 0 then vzero else scaleV (1/(1 : ℚ)) ⟨0, 0, 1⟩) = ⟨0, 0, 1⟩
  rw [if_neg one_ne_zero]
  apply Vec3.ext3 <;> simp [scaleV]

/-- Witness for C1: the single triangle `(0,0,0), (1,0,0), (0,1,0)` with
indices `[0,1,2]` satisfies the index hypothesis, and `recalculateNormals`
produces exactly three identical unit normals `(0,0,1)`. -/
theorem recalculateNormals_spec_witness :
    (∀ i ∈ (⟨[⟨0, 0, 0⟩, ⟨1, 0, 0⟩, ⟨0, 1, 0⟩], [], [], [], [],
        [0, 1, 2]⟩ : TriMesh).mIndices,
      i < (⟨[⟨0, 0, 0⟩, ⟨1, 0, 0⟩, ⟨0, 1, 0⟩], [], [], [], [],
        [0, 1, 2]⟩ : TriMesh).getNumVertices) ∧
    (⟨[⟨0, 0, 0⟩, ⟨1, 0, 0⟩, ⟨0, 1, 0⟩], [], [], [], [],
        [0, 1, 2]⟩ : TriMesh).recalculateNormals =
      some ⟨[⟨0, 0, 0⟩, ⟨1, 0, 0⟩, ⟨0, 1, 0⟩],
        [⟨0, 0, 1⟩, ⟨0, 0, 1⟩, ⟨0, 0, 1⟩], [], [], [], [0, 1, 2]⟩ := by
  constructor
  · decide
  · obtain ⟨m', hm', hlen, hverts, hrgb, hrgba, htex, hind, hdisc, hnorm, hunit⟩ :=
      recalculateNormals_spec
        ⟨[⟨0, 0, 0⟩, ⟨1, 0, 0⟩, ⟨0, 1, 0⟩], [], [], [], [], [0, 1, 2]⟩ (by decide)
    rw [hm']
    obtain ⟨mv, mn, mc1, mc2, mt, mi⟩ := m'
    simp only at hverts hrgb hrgba htex hind hlen hnorm
    subst hverts
    subst hrgb
    subst hrgba
    subst htex
    subst hind
    have hmn : mn = [⟨0, 0, 1⟩, ⟨0, 0, 1⟩, ⟨0, 0, 1⟩] := by
      apply List.ext_getElem
      · simpa using hlen
      · intro i h1 h2
        have hi3 : i < 3 := by
          simpa using h2
        rw [show mn[i] = mn.getD i vzero from
          (List.getD_eq_getElem mn vzero h1).symm, hnorm i (by simpa using hi3),
          exTriangle_normal i hi3]
        interval_cases i <;> rfl
    rw [hmn]

/-- A word of the binary ("DAT") stream: a 32-bit count/index word or a
float payload. -/
inductive DatWord where
  | w32 (n : ℕ)
  | flt (q : ℚ)
deriving DecidableEq, Repr

/-- Version word of the modelled DAT layout. -/
def datVersion : ℕ := 1

def encVec3 (v : Vec3) : List DatWord := [.flt v.x, .flt v.y, .flt v.z]

def encVec2 (v : Vec2) : List DatWord := [.flt v.x, .flt v.y]

def encColor (c : Color) : List DatWord := [.flt c.r, .flt c.g, .flt c.b]

def encColorA (c : ColorA) : List DatWord := [.flt c.r, .flt c.g, .flt c.b, .flt c.a]

def encIdx (i : ℕ) : List DatWord := [.w32 i]

/-- A counted chunk: the element count followed by the encoded elements. -/
def writeChunk {α : Type} (enc : α → List DatWord) (xs : List α) : List DatWord :=
  DatWord.w32 xs.length :: xs.foldr (fun x acc => enc x ++ acc) []

/-- Modelled from the spec: the body of `TriMesh::write` is in a translation
unit missing from the sources, and spec section 4.4 deliberately leaves the
DAT byte layout unspecified beyond round-trip fidelity and a rejected
version header.  This model serializes a version word followed by the six
buffers as counted chunks. -/
def TriMesh.writeDat (m : TriMesh) : List DatWord :=
  DatWord.w32 datVersion ::
    (writeChunk encVec3 m.mVertices ++
      (writeChunk encVec3 m.mNormals ++
        (writeChunk encColor m.mColorsRGB ++
          (writeChunk encColorA m.mColorsRGBA ++
            (writeChunk encVec2 m.mTexCoords ++
              writeChunk encIdx m.mIndices)))))

def decVec3 : List DatWord → Option (Vec3 × List DatWord)
  | .flt x :: .flt y :: .flt z :: rest => some (⟨x, y, z⟩, rest)
  | _ => none

def decVec2 : List DatWord → Option (Vec2 × List DatWord)
  | .flt x :: .flt y :: rest => some (⟨x, y⟩, rest)
  | _ => none

def decColor : List DatWord → Option (Color × List DatWord)
  | .flt r :: .flt g :: .flt b :: rest => some (⟨r, g, b⟩, rest)
  | _ => none

def decColorA : List DatWord → Option (ColorA × List DatWord)
  | .flt r :: .flt g :: .flt b :: .flt a :: rest => some (⟨r, g, b, a⟩, rest)
  | _ => none

def decIdx : List DatWord → Option (ℕ × List DatWord)
  | .w32 i :: rest => some (i, rest)
  | _ => none

/-- Decodes exactly `n` elements. -/
def decList {α : Type} (dec : List DatWord → Option (α × List DatWord)) :
    ℕ → List DatWord → Option (List α × List DatWord)
  | 0, s => some ([], s)
  | n+1, s => (dec s).bind fun p =>
      (decList dec n p.2).bind fun q => some (p.1 :: q.1, q.2)

/-- Decodes a counted chunk. -/
def decChunk {α : Type} (dec : List DatWord → Option (α × List DatWord))
    (s : List DatWord) : Option (List α × List DatWord) :=
  match s with
  | .w32 n :: rest => decList dec n rest
  | _ => none

/-- Modelled from the spec: the body of `TriMesh::read` (DAT path) is in a
translation unit missing from the sources.  Reads the version word
(rejecting an unknown version with a format-version error, modelled as
`none`), then the six counted chunks, requiring the stream to be fully
consumed. -/
def TriMesh.readDat (s : List DatWord) : Option TriMesh :=
  match s with
  | .w32 v :: rest =>
    if v = datVersion then
      (decChunk decVec3 rest).bind fun pv =>
      (decChunk decVec3 pv.2).bind fun pn =>
      (decChunk decColor pn.2).bind fun pc =>
      (decChunk decColorA pc.2).bind fun pca =>
      (decChunk decVec2 pca.2).bind fun pt =>
      (decChunk decIdx pt.2).bind fun pi =>
      if pi.2 = [] then some ⟨pv.1, pn.1, pc.1, pca.1, pt.1, pi.1⟩ else none
    else none
  | _ => none

/-- Decoding a written chunk returns exactly the written elements and the
remaining stream, provided the element codec round-trips. -/
theorem decChunk_writeChunk {α : Type}
    (dec : List DatWord → Option (α × List DatWord)) (enc : α → List DatWord)
    (hrt : ∀ (x : α) (rest : List DatWord), dec (enc x ++ rest) = some (x, rest)) :
    ∀ (xs : List α) (rest : List DatWord),
      decChunk dec (writeChunk enc xs ++ rest) = some (xs, rest) := by
  have hlist : ∀ (xs : List α) (rest : List DatWord),
      decList dec xs.length ((xs.foldr (fun x acc => enc x ++ acc) []) ++ rest) =
        some (xs, rest) := by
    intro xs
    induction xs with
    | nil => intro rest; rfl
    | cons x t ih =>
        intro rest
        show decList dec (t.length + 1)
          (((enc x ++ t.foldr (fun y acc => enc y ++ acc) []) ++ rest)) =
            some (x :: t, rest)
        rw [List.append_assoc]
        show (dec (enc x ++ (t.foldr (fun y acc => enc y ++ acc) [] ++ rest))).bind
            (fun p => (decList dec t.length p.2).bind fun q =>
              some (p.1 :: q.1, q.2)) = some (x :: t, rest)
        rw [hrt x _, Option.some_bind, ih rest, Option.some_bind]
  intro xs rest
  show decList dec xs.length ((xs.foldr (fun x acc => enc x ++ acc) []) ++ rest) =
    some (xs, rest)
  exact hlist xs rest

theorem decVec3_enc (v : Vec3) (rest : List DatWord) :
    decVec3 (encVec3 v ++ rest) = some (v, rest) := rfl

theorem decVec2_enc (v : Vec2) (rest : List DatWord) :
    decVec2 (encVec2 v ++ rest) = some (v, rest) := rfl

theorem decColor_enc (c : Color) (rest : List DatWord) :
    decColor (encColor c ++ rest) = some (c, rest) := rfl

theorem decColorA_enc (c : ColorA) (rest : List DatWord) :
    decColorA (encColorA c ++ rest) = some (c, rest) := rfl

theorem decIdx_enc (i : ℕ) (rest : List DatWord) :
    decIdx (encIdx i ++ rest) = some (i, rest) := rfl

/-- C2: writing a mesh in the binary (DAT) format and reading the written
stream back into a fresh mesh reproduces the vertex, index, normal,
RGB-color, RGBA-color and texcoord buffers exactly. -/
theorem datRoundTrip (m : TriMesh) : TriMesh.readDat m.writeDat = some m := by
  unfold TriMesh.writeDat TriMesh.readDat
  dsimp only
  rw [if_pos rfl]
  rw [decChunk_writeChunk decVec3 encVec3 decVec3_enc, Option.some_bind]
  rw [decChunk_writeChunk decVec3 encVec3 decVec3_enc, Option.some_bind]
  rw [decChunk_writeChunk decColor encColor decColor_enc, Option.some_bind]
  rw [decChunk_writeChunk decColorA encColorA decColorA_enc, Option.some_bind]
  rw [decChunk_writeChunk decVec2 encVec2 decVec2_enc, Option.some_bind]
  rw [show writeChunk encIdx m.mIndices =
    writeChunk encIdx m.mIndices ++ [] from (List.append_nil _).symm]
  rw [decChunk_writeChunk decIdx encIdx decIdx_enc, Option.some_bind]
  rfl

/-- One vertex reference of an OBJ face record: a 1-based (or negative,
end-relative) vertex index, with optional texcoord and normal references. -/
structure FaceRef where
  v : ℤ
  vt : Option ℤ
  vn : Option ℤ
deriving DecidableEq, Repr

/-- Modelled from the spec: the tokenizer of the OBJ-like text format is in
a translation unit missing from the sources; spec section 4.4 describes a
line-oriented state machine whose leading token selects a record kind.  A
line is embedded post-tokenization: a vertex position, vertex normal,
texture coordinate or face record, a skipped line (comment or unsupported
directive), or a record whose tokenization failed (wrong arity or
non-numeric field), which fails the parse with its message. -/
inductive ObjLine where
  | pos (x y z : ℚ)
  | nrm (x y z : ℚ)
  | tex (u w : ℚ)
  | face (refs : List FaceRef)
  | skipped
  | malformed (msg : String)
deriving DecidableEq, Repr

/-- Modelled from the spec: converts one file-format face reference to a
0-based buffer index against a buffer of length `len`.  A positive `r` is
1-based (`r-1` internally) and must reference an already-seen entry
(`r ≤ len`); a negative `r` is relative to the current end of the buffer
(`len + r`, so `-1` is the most recently appended entry); `0` and any
reference outside the buffer fail. -/
def resolveRef (len : ℕ) (r : ℤ) : Option ℕ :=
  if 0 < r then
    if r.toNat - 1 < len then some (r.toNat - 1) else none
  else if r < 0 then
    if 0 ≤ (len : ℤ) + r then some ((len : ℤ) + r).toNat else none
  else none

/-- Fan triangulation as implemented: anchored at `v0`, walking the
remaining references with the previous one. -/
def fanFrom (v0 vprev : ℕ) : List ℕ → List ℕ
  | [] => []
  | v :: rest => v0 :: vprev :: v :: fanFrom v0 v rest

/-- The spec's formulation of fan triangulation: the `n-2` triangles
`(v0,v1,v2), (v0,v2,v3), …`, all sharing the first referenced vertex. -/
def fanSpec (vs : List ℕ) : List ℕ :=
  (List.range (vs.length - 2)).foldr
    (fun k acc => vs.getD 0 0 :: vs.getD (k+1) 0 :: vs.getD (k+2) 0 :: acc) []

/-- Resolves every reference of a list, failing if any fails. -/
def resolveAll (len : ℕ) : List ℤ → Option (List ℕ)
  | [] => some []
  | r :: rest => (resolveRef len r).bind fun i =>
      (resolveAll len rest).bind fun t => some (i :: t)

/-- All of a face's references (vertex, and optional texcoord/normal)
resolve against the current buffer lengths. -/
def refsValid (m : TriMesh) (refs : List FaceRef) : Bool :=
  refs.all fun r =>
    (resolveRef m.mVertices.length r.v).isSome &&
    (match r.vt with
     | none => true
     | some t => (resolveRef m.mTexCoords.length t).isSome) &&
    (match r.vn with
     | none => true
     | some n => (resolveRef m.mNormals.length n).isSome)

/-- Modelled from the spec: processes one line of the OBJ-like text format
(spec section 4.4).  Vertex records append to the corresponding buffer in
file order; faces resolve their references at parse time (failing on a
reference to a not-yet-seen entry) and append the fan triangulation of
their vertex references to the index buffer; unrecognized lines are skipped
without failing; malformed records fail the parse. -/
def processLine (m : TriMesh) : ObjLine → Except String TriMesh
  | .pos x y z => .ok (m.appendVertex ⟨x, y, z⟩)
  | .nrm x y z => .ok (m.appendNormal ⟨x, y, z⟩)
  | .tex u w => .ok (m.appendTexCoord ⟨u, w⟩)
  | .skipped => .ok m
  | .malformed msg => .error msg
  | .face refs =>
    if refs.length < 3 then
      .error "face record with fewer than three vertex references"
    else if refsValid m refs then
      match resolveAll m.mVertices.length (refs.map FaceRef.v) with
      | some (r0 :: r1 :: rest) =>
          .ok { m with mIndices := m.mIndices ++ fanFrom r0 r1 rest }
      | _ => .error "face reference out of range"
    else .error "face reference out of range"

/-- Runs the line-oriented state machine over the file's lines. -/
def runLines (m : TriMesh) : List ObjLine → Except String TriMesh
  | [] => .ok m
  | l :: rest =>
    match processLine m l with
    | .ok m2 => runLines m2 rest
    | .error e => .error e

/-- Parses a whole OBJ-like text file into a fresh mesh. -/
def readObj (lines : List ObjLine) : Except String TriMesh :=
  runLines TriMesh.empty lines

/-- Modelled from the spec: `TriMesh::read` on the text format replaces the
target mesh's content with the parsed mesh; on a parse error it reports the
error and, per the implementer's choice documented by spec section 4.4
("the target mesh is left either empty or in a clearly-marked invalid
state"), leaves the target empty. -/
def TriMesh.readObjInto (target : TriMesh) (lines : List ObjLine) :
    TriMesh × Option String :=
  match readObj lines with
  | .ok m2 => (m2, none)
  | .error e => (TriMesh.empty, some e)

instance : DecidableEq (Except String TriMesh) := fun a b =>
  match a, b with
  | .ok x, .ok y =>
    if h : x = y then isTrue (by rw [h]) else isFalse (by simp [h])
  | .error x, .error y =>
    if h : x = y then isTrue (by rw [h]) else isFalse (by simp [h])
  | .ok _, .error _ => isFalse (by simp)
  | .error _, .ok _ => isFalse (by simp)

/-- C4: whenever the text-format parse fails, `read` reports the parse error
and leaves the target mesh's buffers all empty (the modelled implementation
choice of "unchanged or empty"), never partially populated. -/
theorem read_failure_leaves_empty (target : TriMesh) (lines : List ObjLine)
    (e : String) (h : readObj lines = .error e) :
    TriMesh.readObjInto target lines = (TriMesh.empty, some e) ∧
    (TriMesh.readObjInto target lines).1.mVertices = [] ∧
    (TriMesh.readObjInto target lines).1.mNormals = [] ∧
    (TriMesh.readObjInto target lines).1.mColorsRGB = [] ∧
    (TriMesh.readObjInto target lines).1.mColorsRGBA = [] ∧
    (TriMesh.readObjInto target lines).1.mTexCoords = [] ∧
    (TriMesh.readObjInto target lines).1.mIndices = [] := by
  have hmain : TriMesh.readObjInto target lines = (TriMesh.empty, some e) := by
    unfold TriMesh.readObjInto
    rw [h]
  refine ⟨hmain, ?_, ?_, ?_, ?_, ?_, ?_⟩ <;> rw [hmain] <;> rfl

/-- Witness for C4: a file whose face line references vertex 2 when only
one vertex has been seen fails with a parse error, and reading it into a
non-empty target leaves the target empty with the error reported. -/
theorem read_failure_leaves_empty_witness :
    readObj [ObjLine.pos 0 0 0,
      ObjLine.face [⟨2, none, none⟩, ⟨3, none, none⟩, ⟨4, none, none⟩]] =
        .error "face reference out of range" ∧
    TriMesh.readObjInto ⟨[⟨5, 5, 5⟩], [], [], [], [], [0, 0, 0]⟩
      [ObjLine.pos 0 0 0,
        ObjLine.face [⟨2, none, none⟩, ⟨3, none, none⟩, ⟨4, none, none⟩]] =
      (TriMesh.empty, some "face reference out of range") :=
  ⟨by decide,
   (read_failure_leaves_empty ⟨[⟨5, 5, 5⟩], [], [], [], [], [0, 0, 0]⟩
     [ObjLine.pos 0 0 0,
       ObjLine.face [⟨2, none, none⟩, ⟨3, none, none⟩, ⟨4, none, none⟩]]
     "face reference out of range" (by decide)).1⟩

theorem foldrCongr {α β : Type} (f g : α → β → β) (init : β) :
    ∀ l : List α, (∀ a ∈ l, ∀ b, f a b = g a b) →
      l.foldr f init = l.foldr g init := by
  intro l
  induction l with
  | nil => intro _; rfl
  | cons a t ih =>
      intro h
      show f a (t.foldr f init) = g a (t.foldr g init)
      rw [ih (fun x hx b => h x (List.mem_cons_of_mem a hx) b),
        h a (List.mem_cons_self a t)]

theorem fanSpec_cons (v0 v1 v2 : ℕ) (rest : List ℕ) :
    fanSpec (v0 :: v1 :: v2 :: rest) = v0 :: v1 :: v2 :: fanSpec (v0 :: v2 :: rest) := by
  unfold fanSpec
  rw [show (v0 :: v1 :: v2 :: rest).length - 2 = rest.length + 1 by simp,
    show (v0 :: v2 :: rest).length - 2 = rest.length by simp,
    List.range_succ_eq_map]
  show (v0 :: v1 :: v2 :: rest).getD 0 0 :: (v0 :: v1 :: v2 :: rest).getD 1 0 ::
      (v0 :: v1 :: v2 :: rest).getD 2 0 ::
      ((List.range rest.length).map Nat.succ).foldr
        (fun k acc => (v0 :: v1 :: v2 :: rest).getD 0 0 ::
          (v0 :: v1 :: v2 :: rest).getD (k+1) 0 ::
          (v0 :: v1 :: v2 :: rest).getD (k+2) 0 :: acc) [] = _
  rw [List.foldr_map]
  simp only [List.getD_cons_zero, List.getD_cons_succ]

theorem fanFrom_eq (v0 : ℕ) : ∀ (rest : List ℕ) (v1 : ℕ),
    fanFrom v0 v1 rest = fanSpec (v0 :: v1 :: rest) := by
  intro rest
  induction rest with
  | nil => intro v1; rfl
  | cons v t ih =>
      intro v1
      show v0 :: v1 :: v :: fanFrom v0 v t = fanSpec (v0 :: v1 :: v :: t)
      rw [ih v, fanSpec_cons]

theorem resolveAll_eq (len : ℕ) : ∀ rs : List ℤ,
    (∀ r ∈ rs, (resolveRef len r).isSome = true) →
    resolveAll len rs = some (rs.map fun r => (resolveRef len r).getD 0) := by
  intro rs
  induction rs with
  | nil => intro _; rfl
  | cons r t ih =>
      intro h
      obtain ⟨i, hi⟩ := Option.isSome_iff_exists.mp (h r (List.mem_cons_self r t))
      show (resolveRef len r).bind _ = _
      rw [hi, Option.some_bind, ih (fun x hx => h x (List.mem_cons_of_mem r hx)),
        Option.some_bind, List.map_cons, hi]
      rfl

/-- C5: text-format face references are 1-based in the file and converted
to 0-based (`r` with `0 < r ≤ len` resolves to `r-1`); a negative reference
is resolved relative to the current end of the buffer (`len + r`, and in
particular `-1` resolves to the most recently appended entry `len-1`),
`0` is rejected; and a face with `n ≥ 3` vertex references is stored as the
fan of `n-2` triangles `(v0,v1,v2), (v0,v2,v3), …` sharing the first
referenced vertex, appended to the index buffer. -/
theorem face_parsing_spec :
    (∀ (len : ℕ) (r : ℤ), 0 < r → r ≤ (len : ℤ) →
      resolveRef len r = some (r.toNat - 1)) ∧
    (∀ (len : ℕ) (r : ℤ), r < 0 → 0 ≤ (len : ℤ) + r →
      resolveRef len r = some ((len : ℤ) + r).toNat) ∧
    (∀ len : ℕ, 1 ≤ len → resolveRef len (-1) = some (len - 1)) ∧
    (∀ len : ℕ, resolveRef len 0 = none) ∧
    (∀ (m : TriMesh) (refs : List FaceRef), 3 ≤ refs.length →
      refsValid m refs = true →
      processLine m (.face refs) = .ok { m with mIndices := (m.mIndices ++
        fanSpec (refs.map fun r =>
          (resolveRef m.mVertices.length r.v).getD 0)) }) := by
  refine ⟨?_, ?_, ?_, ?_, ?_⟩
  · intro len r h1 h2
    unfold resolveRef
    rw [if_pos h1, if_pos (by omega)]
  · intro len r h1 h2
    unfold resolveRef
    rw [if_neg (by omega), if_pos h1, if_pos h2]
  · intro len h1
    unfold resolveRef
    rw [if_neg (by omega), if_pos (by omega), if_pos (by omega)]
    exact congrArg some (by omega)
  · intro len
    unfold resolveRef
    rw [if_neg (by omega), if_neg (by omega)]
  · intro m refs h3 hval
    have hall : ∀ r ∈ refs, (resolveRef m.mVertices.length r.v).isSome = true := by
      intro r hr
      have hb := (List.all_eq_true.mp hval) r hr
      simp only [Bool.and_eq_true] at hb
      exact hb.1.1
    have hres := resolveAll_eq m.mVertices.length (refs.map FaceRef.v)
      (by
        intro r hr
        obtain ⟨fr, hfr, heq⟩ := List.mem_map.mp hr
        exact heq ▸ hall fr hfr)
    rcases refs with _ | ⟨a, _ | ⟨b, _ | ⟨c, rest⟩⟩⟩
    · simp at h3
    · simp at h3
    · simp at h3
    · unfold processLine
      dsimp only
      rw [if_neg (by simp), if_pos hval, hres]
      simp only [List.map_map, Function.comp, List.map_cons]
      rw [fanFrom_eq]
      rfl

/-- Witness for C5: concrete resolutions (`3` of 5 entries resolves to `2`,
`-2` to `3`, `-1` to `4`, `0` fails) and a quad face `[1, 2, 3, -1]` on a
4-vertex mesh stored as the two fan triangles `(0,1,2), (0,2,3)`. -/
theorem face_parsing_spec_witness :
    resolveRef 5 3 = some 2 ∧
    resolveRef 5 (-2) = some 3 ∧
    resolveRef 5 (-1) = some 4 ∧
    resolveRef 5 0 = none ∧
    processLine ⟨[⟨0, 0, 0⟩, ⟨1, 0, 0⟩, ⟨1, 1, 0⟩, ⟨0, 1, 0⟩], [], [], [], [], []⟩
      (.face [⟨1, none, none⟩, ⟨2, none, none⟩, ⟨3, none, none⟩,
        ⟨-1, none, none⟩]) =
      .ok ⟨[⟨0, 0, 0⟩, ⟨1, 0, 0⟩, ⟨1, 1, 0⟩, ⟨0, 1, 0⟩], [], [], [], [],
        [0, 1, 2, 0, 2, 3]⟩ := by
  refine ⟨?_, ?_, ?_, face_parsing_spec.2.2.2.1 5, ?_⟩
  · simpa using face_parsing_spec.1 5 3 (by decide) (by decide)
  · simpa using face_parsing_spec.2.1 5 (-2) (by decide) (by decide)
  · simpa using face_parsing_spec.2.2.1 5 (by decide)
  · rw [face_parsing_spec.2.2.2.2
      ⟨[⟨0, 0, 0⟩, ⟨1, 0, 0⟩, ⟨1, 1, 0⟩, ⟨0, 1, 0⟩], [], [], [], [], []⟩
      [⟨1, none, none⟩, ⟨2, none, none⟩, ⟨3, none, none⟩, ⟨-1, none, none⟩]
      (by decide) (by decide)]
    decide
